import Mathlib

/-!
Shallow embedding of the ThinkFlock repository (a browser-based multi-persona
brainstorming chat/voice application) for checking its natural-language
specification.

The embedding translates, from the TypeScript source:
* the data model of `src/types.ts` (`User`, `PublicUser`, `Persona`,
  `ChatMessage`, `SessionHistoryItem`);
* the mock auth service (`hashPassword`, `authService.signUp`,
  `authService.login`): the sessionStorage-backed user list is modelled as an
  explicit `List User` threaded through each operation;
* the base64 helpers of the live-call page (`encode`, `decode`, and the
  browser primitives `btoa` / `atob` they call), with JS binary strings
  modelled as `List Char` whose char codes are the bytes;
* the PCM audio conversions (`decodeAudioDataFromAPI`, `createBlob`), with
  samples as rationals (the float operations used - division and
  multiplication by the power of two 32768, and integer conversion - are
  exact in IEEE arithmetic, so the rational model is faithful);
* the audio-chunk playback scheduling of the live-call `onmessage` handler;
* the chat page's send-message flow (`handleSendMessage`,
  `getMentionedPersonas`, `generatePersonaResponse`), with the external
  generative-AI call abstracted as an oracle `Except Unit String` outcome;
* `handleEndSession` from `src/App.tsx`.
-/

namespace ThinkFlock

/-! ## Data model (src/types.ts) -/

/-- `User` record from `src/types.ts`. -/
structure User where
  id : String
  email : String
  hashedPassword : String
deriving DecidableEq, Repr

/-- `PublicUser = Omit<User, 'hashedPassword'>` from `src/types.ts`: exactly
the fields `id` and `email`, with no password hash field. -/
structure PublicUser where
  id : String
  email : String
deriving DecidableEq, Repr

/-- `Persona` record from `src/types.ts`. -/
structure Persona where
  name : String
  description : String
  systemInstruction : String
  avatarUrl : String
deriving DecidableEq, Repr

/-- `ChatMessage` record from `src/types.ts`. -/
structure ChatMessage where
  sender : String
  text : String
deriving DecidableEq, Repr

/-- `SessionHistoryItem` record from `src/types.ts`. -/
structure SessionHistoryItem where
  id : String
  topic : String
  personas : List Persona
  messages : List ChatMessage
deriving DecidableEq, Repr

/-! ## base64 (browser `btoa` / `atob`, used by the auth service and the
live-call audio helpers) -/

/-- The base64 alphabet, in index order. -/
def base64Chars : List Char :=
  ['A', 'B', 'C', 'D', 'E', 'F', 'G', 'H', 'I', 'J', 'K', 'L', 'M',
   'N', 'O', 'P', 'Q', 'R', 'S', 'T', 'U', 'V', 'W', 'X', 'Y', 'Z',
   'a', 'b', 'c', 'd', 'e', 'f', 'g', 'h', 'i', 'j', 'k', 'l', 'm',
   'n', 'o', 'p', 'q', 'r', 's', 't', 'u', 'v', 'w', 'x', 'y', 'z',
   '0', '1', '2', '3', '4', '5', '6', '7', '8', '9', '+', '/']

/-- The base64 digit for a 6-bit value (values outside 0..63 give the pad
character, which never happens for the values produced by encoding). -/
def b64Char (n : Nat) : Char := base64Chars.getD n '='

/-- The 6-bit value of a base64 digit. -/
def b64Index (c : Char) : Nat := base64Chars.indexOf c

/-- base64 encoding of a byte list, three bytes to four digits, with `=`
padding, exactly as `btoa` produces it. -/
def btoaChunks : List Nat → List Char
  | [] => []
  | [b0] =>
      [b64Char (b0 / 4), b64Char (b0 % 4 * 16), '=', '=']
  | [b0, b1] =>
      [b64Char (b0 / 4), b64Char (b0 % 4 * 16 + b1 / 16),
       b64Char (b1 % 16 * 4), '=']
  | b0 :: b1 :: b2 :: rest =>
      b64Char (b0 / 4) :: b64Char (b0 % 4 * 16 + b1 / 16) ::
      b64Char (b1 % 16 * 4 + b2 / 64) :: b64Char (b2 % 64) ::
      btoaChunks rest

/-- base64 decoding to a byte list, four digits to three bytes, honouring `=`
padding, as `atob` does on well-formed input. -/
def atobChunks : List Char → List Nat
  | c0 :: c1 :: c2 :: c3 :: rest =>
      if c2 = '=' then
        [b64Index c0 * 4 + b64Index c1 / 16]
      else if c3 = '=' then
        [b64Index c0 * 4 + b64Index c1 / 16,
         b64Index c1 % 16 * 16 + b64Index c2 / 4]
      else
        (b64Index c0 * 4 + b64Index c1 / 16) ::
        (b64Index c1 % 16 * 16 + b64Index c2 / 4) ::
        (b64Index c2 % 4 * 64 + b64Index c3) ::
        atobChunks rest
  | _ => []

/-- `btoa` on a JS binary string (modelled as its list of characters): it
succeeds exactly when every character is Latin-1, and then encodes the list
of char codes. -/
def btoaList (s : List Char) : Option (List Char) :=
  if s.all (fun c => c.toNat < 256) then some (btoaChunks (s.map Char.toNat))
  else none

/-- `atob` on a base64 string, returning the binary string whose char codes
are the decoded bytes. -/
def atobList (s : List Char) : List Char :=
  (atobChunks s).map Char.ofNat

/-! ## Auth service (src/unnamed/part_000, services/authService) -/

/-- `hashPassword` from the auth service:
`try { return btoa(password + 'somesalt') } catch { return password }`. -/
def hashPassword (password : String) : String :=
  match btoaList (password ++ "somesalt").toList with
  | some h => h.asString
  | none => password

/-- `authService.signUp(email, password)`: the sessionStorage user list is the
explicit `store` argument, and `Date.now().toString()` is the `newId`
argument. Returns the settled promise value together with the stored list
after the call (`saveUsers` is modelled by returning the updated list). -/
def signUp (store : List User) (newId email password : String) :
    Except String PublicUser × List User :=
  match store.find? (fun u => u.email == email) with
  | some _ => (Except.error "An account with this email already exists.", store)
  | none =>
      let newUser : User :=
        { id := newId, email := email, hashedPassword := hashPassword password }
      (Except.ok { id := newUser.id, email := newUser.email },
       store ++ [newUser])

/-- `authService.login(email, password)`: rejects unless the first stored user
with the given email has the matching password hash; never writes the store,
so the second component is the unchanged list. -/
def login (store : List User) (email password : String) :
    Except String PublicUser × List User :=
  match store.find? (fun u => u.email == email) with
  | some u =>
      if u.hashedPassword == hashPassword password then
        (Except.ok { id := u.id, email := u.email }, store)
      else
        (Except.error "Invalid email or password.", store)
  | none => (Except.error "Invalid email or password.", store)

/-! ## Chat page (src/unnamed/part_003, GroupChatPage) -/

/-- JS regex `\w`: `[A-Za-z0-9_]`. -/
def isWordChar (c : Char) : Bool :=
  (('a' ≤ c && c ≤ 'z') || ('A' ≤ c && c ≤ 'Z') ||
   ('0' ≤ c && c ≤ '9') || c = '_')

/-- JS regex `\s`: the ECMAScript WhiteSpace and LineTerminator code points -
tab, LF, VT, FF, CR, space, NBSP U+00A0, Ogham space mark U+1680, the Zs
space separators U+2000..U+200A, U+202F and U+205F, ideographic space U+3000,
the line and paragraph separators U+2028 and U+2029, and ZWNBSP U+FEFF. The
same set is stripped by `String.prototype.trim`. -/
def isSpaceChar (c : Char) : Bool :=
  (c = ' ' || c = '\t' || c = '\n' || c = '\r' ||
   c.toNat = 0x0B || c.toNat = 0x0C || c.toNat = 0xA0 ||
   c.toNat = 0x1680 || (0x2000 ≤ c.toNat && c.toNat ≤ 0x200A) ||
   c.toNat = 0x2028 || c.toNat = 0x2029 || c.toNat = 0x202F ||
   c.toNat = 0x205F || c.toNat = 0x3000 || c.toNat = 0xFEFF)

/-- The global matches of `/@(\w+\s?\w*)/g` over the text, each returned as
the capture group (the full match minus the leading `@`), in order. Greedy
matching with disjoint character classes needs no backtracking: after `@`,
`\w+` takes the maximal word-character run, `\s?` takes one following
whitespace character when present, and `\w*` takes the next maximal word run;
the scan resumes after each match. -/
def scanMentionsAux : List Char → List (List Char)
  | [] => []
  | c :: rest =>
      if c = '@' then
        match hw : rest.takeWhile isWordChar with
        | [] => scanMentionsAux rest
        | w0 :: w1 =>
            match hr : rest.drop (w0 :: w1).length with
            | [] => [w0 :: w1]
            | d :: rest2 =>
                if isSpaceChar d then
                  ((w0 :: w1) ++ d :: rest2.takeWhile isWordChar) ::
                    scanMentionsAux (rest2.drop (rest2.takeWhile isWordChar).length)
                else
                  (w0 :: w1) :: scanMentionsAux (d :: rest2)
      else scanMentionsAux rest
termination_by l => l.length
decreasing_by
  · simp
  · have h1 : (rest.drop (w0 :: w1).length).length = rest2.length + 1 := by
      rw [hr]; simp
    have h2 : (rest2.drop (rest2.takeWhile isWordChar).length).length ≤ rest2.length := by
      simp
    simp only [List.length_drop] at h1
    simp only [List.length_cons]
    omega
  · have h1 : (rest.drop (w0 :: w1).length).length = rest2.length + 1 := by
      rw [hr]; simp
    simp only [List.length_drop] at h1
    simp only [List.length_cons]
    omega
  · simp

/-- `text.match(/@(\w+\s?\w*)/g)` from `getMentionedPersonas`, with each match
stripped of its leading `@` (the code applies `substring(1)`), as a list of
strings; the empty list stands for a `null` match result. -/
def scanMentions (text : String) : List String :=
  (scanMentionsAux text.toList).map List.asString

/-- `getMentionedPersonas` from the chat page: `none` models the `null`
returned when the regex finds no match; otherwise the personas whose names
appear among the match captures, kept in `config.personas` order. -/
def getMentionedPersonas (personas : List Persona) (text : String) :
    Option (List Persona) :=
  match scanMentions text with
  | [] => none
  | mentions => some (personas.filter (fun p => mentions.contains p.name))

/-- `getMentionedPersonas(userInput) || config.personas` from
`handleSendMessage` (an empty match list is a truthy JS array, so only `null`
falls back to all personas). -/
def respondingPersonas (personas : List Persona) (text : String) : List Persona :=
  (getMentionedPersonas personas text).getD personas

/-- One generation step of the `handleSendMessage` flow, in execution order:
the sequential `await generatePersonaResponse persona ...` calls, then the
optional `await generatePersonaDiscussion ...`. -/
inductive GenCall where
  | personaResponse (name : String)
  | personaDiscussion
deriving DecidableEq, Repr

/-- JS `String.prototype.trim`: strip whitespace from both ends. -/
def jsTrim (s : String) : String :=
  (((s.toList.dropWhile isSpaceChar).reverse.dropWhile isSpaceChar).reverse).asString

/-- The ordered trace of generation calls `handleSendMessage` performs for a
submitted input: nothing when the trimmed input is empty (the early return);
otherwise one sequential response call per responding persona, in list order,
followed by exactly one discussion call when more than one persona responded. -/
def sendTrace (personas : List Persona) (text : String) : List GenCall :=
  if jsTrim text = "" then []
  else
    (respondingPersonas personas text).map (fun p => GenCall.personaResponse p.name) ++
      (if 1 < (respondingPersonas personas text).length then
        [GenCall.personaDiscussion]
      else [])

/-- `generatePersonaResponse` from the chat page, with the vendor call
`chat.sendMessage` abstracted as its outcome: `Except.error ()` when the call
throws, `Except.ok text` when it returns a response text (the empty string
models a falsy `result.text`). Returns the message list after the call. -/
def generatePersonaResponse (persona : Persona) (result : Except Unit String)
    (messages : List ChatMessage) : List ChatMessage :=
  match result with
  | Except.ok text =>
      if text = "" then messages
      else messages ++ [{ sender := persona.name, text := text }]
  | Except.error _ =>
      messages ++
        [{ sender := "System",
           text := "An error occurred with " ++ persona.name ++ "." }]

/-- The sequential response loop of `handleSendMessage`, folding
`generatePersonaResponse` over the responding personas paired with their
generation outcomes. -/
def runSendLoop (steps : List (Persona × Except Unit String))
    (messages : List ChatMessage) : List ChatMessage :=
  steps.foldl (fun msgs step => generatePersonaResponse step.1 step.2 msgs) messages

/-! ## Live-call audio scheduling (src/unnamed/part_004, onmessage) -/

/-- One `onmessage` event relevant to playback scheduling: an audio chunk
(with the output context's `currentTime` at arrival and the decoded buffer's
duration, both in seconds as rationals), or an `interrupted` message. -/
inductive AudioEvent where
  | chunk (currentTime duration : ℚ)
  | interrupted
deriving DecidableEq, Repr

/-- The scheduled start time of a chunk:
`nextStartTime = max(nextStartTime, ctx.currentTime)` followed by
`source.start(nextStartTime)`. -/
def chunkStart (nextStartTime currentTime : ℚ) : ℚ :=
  max nextStartTime currentTime

/-- The `nextStartTimeRef` update performed by one `onmessage` event: a chunk
advances it past the scheduled interval, an `interrupted` message resets it
to 0. -/
def stepNST (nextStartTime : ℚ) : AudioEvent → ℚ
  | AudioEvent.chunk ct dur => chunkStart nextStartTime ct + dur
  | AudioEvent.interrupted => 0

/-- `nextStartTimeRef` after processing a list of events in arrival order
(the handler body runs to completion per event). -/
def nstAfter (nst0 : ℚ) (events : List AudioEvent) : ℚ :=
  events.foldl stepNST nst0

/-! ## PCM conversions (src/unnamed/part_004) -/

/-- The signed 16-bit value of two consecutive bytes of the chunk, as the
little-endian `Int16Array` view in `decodeAudioDataFromAPI` reads them. -/
def toInt16Pair (b0 b1 : Nat) : Int :=
  let v := b0 + 256 * b1
  if v < 32768 then (v : Int) else (v : Int) - 65536

/-- The `Int16Array` view of a byte list (a trailing odd byte never occurs:
the API delivers whole 16-bit frames). -/
def bytesToInt16 : List Nat → List Int
  | b0 :: b1 :: rest => toInt16Pair b0 b1 :: bytesToInt16 rest
  | _ => []

/-- `decodeAudioDataFromAPI` with `numChannels = 1`: the single channel's
sample data, `channelData[i] = dataInt16[i] / 32768.0` (exact in floats, so
modelled in ℚ). -/
def decodeAudioDataFromAPI (data : List Nat) : List ℚ :=
  (bytesToInt16 data).map (fun (v : ℤ) => (v : ℚ) / 32768)

/-- JS number-to-integer truncation (round toward zero), on rationals. -/
def truncRat (x : ℚ) : Int :=
  if 0 ≤ x then ⌊x⌋ else ⌈x⌉

/-- JS `ToInt16`: reduce an integer modulo 2^16 into `[-32768, 32768)`, as
assignment into an `Int16Array` does. -/
def toInt16 (n : Int) : Int :=
  if n % 65536 < 32768 then n % 65536 else n % 65536 - 65536

/-- The 16-bit integer `createBlob` stores for one input sample:
`int16[i] = data[i] * 32768`. -/
def createBlobSample (x : ℚ) : Int :=
  toInt16 (truncRat (x * 32768))

/-- The `Int16Array` contents `createBlob` builds from the input samples
(the blob's `data` field is then `encode` of these bytes). -/
def createBlob (data : List ℚ) : List Int :=
  data.map createBlobSample

/-- `encode` from the live-call page: build the binary string whose chars are
`String.fromCharCode(bytes[i])` and apply `btoa` (which succeeds since every
byte is below 256). -/
def encode (bytes : List Nat) : Option (List Char) :=
  btoaList (bytes.map Char.ofNat)

/-- `decode` from the live-call page: `atob` to a binary string, then read
each char code into a byte array. -/
def decode (s : List Char) : List Nat :=
  (atobList s).map Char.toNat

/-! ## Session history (src/App.tsx, handleEndSession) -/

/-- `handleEndSession` from `src/App.tsx`: drop every history item with the
completed session's topic, then append the completed session (with a fresh
`Date.now()` id, the `newId` argument) as the last element. -/
def handleEndSession (prevHistory : List SessionHistoryItem) (newId : String)
    (completedTopic : String) (completedPersonas : List Persona)
    (completedMessages : List ChatMessage) : List SessionHistoryItem :=
  prevHistory.filter (fun h => h.topic ≠ completedTopic) ++
    [{ id := newId, topic := completedTopic, personas := completedPersonas,
       messages := completedMessages }]

end ThinkFlock

namespace ThinkFlock

/-! ## Helper lemmas -/

/-- Decoding a base64 digit inverts encoding a 6-bit value. -/
theorem b64Index_b64Char : ∀ s, s < 64 → b64Index (b64Char s) = s := by decide

/-- No 6-bit value encodes to the pad character. -/
theorem b64Char_ne_pad : ∀ s, s < 64 → b64Char s ≠ '=' := by decide

/-- base64 round trip on byte lists: `atob`-decoding an `btoa`-encoding
recovers the bytes. -/
theorem atobChunks_btoaChunks (l : List Nat) (h : ∀ b ∈ l, b < 256) :
    atobChunks (btoaChunks l) = l := by
  induction l using btoaChunks.induct with
  | case1 => rfl
  | case2 b0 =>
      have hb0 : b0 < 256 := h b0 (by simp)
      rw [btoaChunks, atobChunks, if_pos rfl,
        b64Index_b64Char _ (by omega), b64Index_b64Char _ (by omega)]
      simp only [List.cons.injEq, and_true]
      omega
  | case3 b0 b1 =>
      have hb0 : b0 < 256 := h b0 (by simp)
      have hb1 : b1 < 256 := h b1 (by simp)
      rw [btoaChunks, atobChunks, if_neg (b64Char_ne_pad _ (by omega)), if_pos rfl,
        b64Index_b64Char _ (by omega), b64Index_b64Char _ (by omega),
        b64Index_b64Char _ (by omega)]
      simp only [List.cons.injEq, and_true]
      omega
  | case4 b0 b1 b2 rest ih =>
      have hb0 : b0 < 256 := h b0 (by simp)
      have hb1 : b1 < 256 := h b1 (by simp)
      have hb2 : b2 < 256 := h b2 (by simp)
      rw [btoaChunks, atobChunks, if_neg (b64Char_ne_pad _ (by omega)),
        if_neg (b64Char_ne_pad _ (by omega)),
        b64Index_b64Char _ (by omega), b64Index_b64Char _ (by omega),
        b64Index_b64Char _ (by omega), b64Index_b64Char _ (by omega)]
      rw [ih (fun b hb => h b (by simp [hb]))]
      simp only [List.cons.injEq, and_true]
      omega

/-- `String.fromCharCode` followed by `charCodeAt` is the identity on byte
values. -/
theorem char_toNat_ofNat {n : Nat} (h : n < 256) : (Char.ofNat n).toNat = n := by
  have hv : n.isValidChar := Or.inl (by omega)
  rw [Char.ofNat, dif_pos hv]
  rfl

/-- The `Int16Array` view has one element per byte pair. -/
theorem bytesToInt16_length : ∀ l : List Nat, (bytesToInt16 l).length = l.length / 2
  | [] => by simp [bytesToInt16]
  | [_] => by simp [bytesToInt16]
  | b0 :: b1 :: rest => by
      simp only [bytesToInt16, List.length_cons, bytesToInt16_length rest]
      omega

/-- A signed 16-bit value read from two bytes lies in `[-32768, 32768)`. -/
theorem toInt16Pair_range (b0 b1 : Nat) (h0 : b0 < 256) (h1 : b1 < 256) :
    -32768 ≤ toInt16Pair b0 b1 ∧ toInt16Pair b0 b1 < 32768 := by
  rw [toInt16Pair]
  split <;> omega

/-- Every element of the `Int16Array` view of a byte list lies in the signed
16-bit range. -/
theorem bytesToInt16_mem_range : ∀ (l : List Nat), (∀ b ∈ l, b < 256) →
    ∀ v ∈ bytesToInt16 l, -32768 ≤ v ∧ v < 32768
  | [], _, v, hv => by simp [bytesToInt16] at hv
  | [b], _, v, hv => by simp [bytesToInt16] at hv
  | b0 :: b1 :: rest, h, v, hv => by
      rw [bytesToInt16] at hv
      rcases List.mem_cons.mp hv with rfl | hv
      · exact toInt16Pair_range b0 b1 (h b0 (by simp)) (h b1 (by simp))
      · exact bytesToInt16_mem_range rest (fun b hb => h b (by simp [hb])) v hv

/-- `createBlob` stores, for each sample, the truncated product reduced into
the signed 16-bit range modulo 2^16 (two's-complement wrapping). -/
theorem createBlobSample_wrap (x : ℚ) :
    (createBlobSample x - truncRat (x * 32768)) % 65536 = 0 ∧
    -32768 ≤ createBlobSample x ∧ createBlobSample x < 32768 := by
  rw [createBlobSample, toInt16]
  generalize truncRat (x * 32768) = t
  split <;> omega

/-- Processing one more event folds one `stepNST` over the state. -/
theorem nstAfter_take_succ (nst0 : ℚ) (events : List AudioEvent) (i : Nat)
    (e : AudioEvent) (h : events[i]? = some e) :
    nstAfter nst0 (events.take (i + 1)) = stepNST (nstAfter nst0 (events.take i)) e := by
  rw [nstAfter, List.take_succ, h, List.foldl_append]
  rfl

end ThinkFlock

namespace ThinkFlock

/-! ## Claim theorems -/

/-- C1, counterexample: the claim "login resolves if and only if the store
contains a user whose email equals the given email and whose hashedPassword
equals hashPassword(password)" fails at a store holding two users with email
"e": the second matches hashPassword "p", so the store contains a matching
user, yet login rejects with the generic error because `users.find` returns
only the first user with that email, whose hash "x" does not match. -/
theorem login_contains_matching_user_counterexample :
    (∃ u ∈ [{ id := "1", email := "e", hashedPassword := "x" : User},
            { id := "2", email := "e", hashedPassword := hashPassword "p" : User}],
        u.email = "e" ∧ u.hashedPassword = hashPassword "p")
    ∧ (login [{ id := "1", email := "e", hashedPassword := "x" : User},
              { id := "2", email := "e", hashedPassword := hashPassword "p" : User}]
        "e" "p").1 = Except.error "Invalid email or password." := by
  refine ⟨⟨{ id := "2", email := "e", hashedPassword := hashPassword "p" },
    by simp, rfl, rfl⟩, ?_⟩
  rfl

/-- C1 (amended): for every users store and every (email, password), login
resolves if and only if the first stored user with the given email exists and
its hashedPassword equals hashPassword(password); in every other case it
rejects with the error message "Invalid email or password.", and the stored
user list is unchanged by login in both cases. -/
theorem login_first_email_match_spec (store : List User) (email password : String) :
    ((∃ pub, (login store email password).1 = Except.ok pub) ↔
      ∃ u, store.find? (fun v => v.email == email) = some u ∧
        u.hashedPassword = hashPassword password)
    ∧ (∀ msg, (login store email password).1 = Except.error msg →
        msg = "Invalid email or password.")
    ∧ (login store email password).2 = store := by
  cases hf : store.find? (fun v => v.email == email) with
  | none => simp [login, hf]
  | some u =>
      by_cases hpw : u.hashedPassword = hashPassword password
      · simp [login, hf, hpw]
      · simp [login, hf, hpw]

/-- C1, witness: the amended login specification evaluated at the concrete
one-user store that matches the credentials. -/
theorem login_first_email_match_spec_witness :
    ((∃ pub, (login [{ id := "1", email := "e", hashedPassword := hashPassword "p" : User}]
        "e" "p").1 = Except.ok pub) ↔
      ∃ u, [{ id := "1", email := "e", hashedPassword := hashPassword "p" : User}].find?
          (fun v => v.email == "e") = some u ∧
        u.hashedPassword = hashPassword "p")
    ∧ (∀ msg, (login [{ id := "1", email := "e", hashedPassword := hashPassword "p" : User}]
        "e" "p").1 = Except.error msg → msg = "Invalid email or password.")
    ∧ (login [{ id := "1", email := "e", hashedPassword := hashPassword "p" : User}]
        "e" "p").2 = [{ id := "1", email := "e", hashedPassword := hashPassword "p" : User}] :=
  login_first_email_match_spec
    [{ id := "1", email := "e", hashedPassword := hashPassword "p" }] "e" "p"

/-- C2: signUp rejects with "An account with this email already exists." if
and only if some stored user already has that email, leaving the stored list
unchanged; otherwise it appends exactly one new user whose hashedPassword is
hashPassword(password), persists the updated list, and resolves with that
user's public fields. -/
theorem signUp_spec (store : List User) (newId email password : String) :
    ((((signUp store newId email password).1 =
        Except.error "An account with this email already exists.") ∧
      (signUp store newId email password).2 = store) ↔
      ∃ u ∈ store, u.email = email)
    ∧ ((¬ ∃ u ∈ store, u.email = email) →
        (signUp store newId email password).1 =
          Except.ok { id := newId, email := email } ∧
        (signUp store newId email password).2 =
          store ++ [{ id := newId, email := email,
                      hashedPassword := hashPassword password }]) := by
  cases hf : store.find? (fun u => u.email == email) with
  | none =>
      have hno : ¬ ∃ u ∈ store, u.email = email := by
        rw [List.find?_eq_none] at hf
        rintro ⟨u, hu, he⟩
        exact absurd (by simpa using he) (hf u hu)
      simp [signUp, hf, hno]
  | some u =>
      have hyes : ∃ u ∈ store, u.email = email := by
        have hmem := List.mem_of_find?_eq_some hf
        have hp := List.find?_some hf
        exact ⟨u, hmem, by simpa using hp⟩
      simp [signUp, hf, hyes]

/-- C2, witness: the signUp specification evaluated at the empty store. -/
theorem signUp_spec_witness :
    ((((signUp [] "1" "e" "p").1 =
        Except.error "An account with this email already exists.") ∧
      (signUp [] "1" "e" "p").2 = []) ↔
      ∃ u ∈ ([] : List User), u.email = "e")
    ∧ ((¬ ∃ u ∈ ([] : List User), u.email = "e") →
        (signUp [] "1" "e" "p").1 = Except.ok { id := "1", email := "e" } ∧
        (signUp [] "1" "e" "p").2 =
          [] ++ [{ id := "1", email := "e", hashedPassword := hashPassword "p" }]) :=
  signUp_spec [] "1" "e" "p"

end ThinkFlock

namespace ThinkFlock

/-- C3: the password encoding is reversible: for every password whose
characters are Latin-1 (so btoa succeeds), hashPassword(p) is the base64
encoding of the string p + "somesalt", and base64-decoding hashPassword(p)
recovers p + "somesalt" exactly (as a character list and as a string), so the
original password is recoverable from the stored value. -/
theorem hashPassword_reversible (p : String) (h : ∀ c ∈ p.toList, c.toNat < 256) :
    hashPassword p =
      (btoaChunks ((p ++ "somesalt").toList.map Char.toNat)).asString
    ∧ atobList (hashPassword p).toList = (p ++ "somesalt").toList
    ∧ (atobList (hashPassword p).toList).asString = p ++ "somesalt" := by
  have hsalt : ∀ c ∈ "somesalt".toList, c.toNat < 256 := by decide
  have hall : ∀ c ∈ (p ++ "somesalt").toList, c.toNat < 256 := by
    intro c hc
    rw [String.toList, String.data_append, List.mem_append] at hc
    rcases hc with hc | hc
    · exact h c hc
    · exact hsalt c hc
  have hallb : ((p ++ "somesalt").toList.all (fun c => c.toNat < 256)) = true := by
    simp only [List.all_eq_true, decide_eq_true_eq]
    exact fun c hc => hall c hc
  have h1 : hashPassword p =
      (btoaChunks ((p ++ "somesalt").toList.map Char.toNat)).asString := by
    rw [hashPassword, btoaList, if_pos hallb]
  have hbytes : ∀ b ∈ (p ++ "somesalt").toList.map Char.toNat, b < 256 := by
    simp only [List.mem_map]
    rintro b ⟨c, hc, rfl⟩
    exact hall c hc
  have h2 : atobList (hashPassword p).toList = (p ++ "somesalt").toList := by
    rw [h1, List.toList_asString, atobList, atobChunks_btoaChunks _ hbytes,
      List.map_map]
    refine (List.map_congr_left ?_).trans (List.map_id _)
    intro c _
    exact Char.ofNat_toNat c
  exact ⟨h1, h2, by rw [h2, String.asString_toList]⟩

/-- C3, witness: the reversibility of hashPassword evaluated at the concrete
password "p". -/
theorem hashPassword_reversible_witness :
    (∀ c ∈ "p".toList, c.toNat < 256)
    ∧ (hashPassword "p" =
        (btoaChunks (("p" ++ "somesalt").toList.map Char.toNat)).asString
      ∧ atobList (hashPassword "p").toList = ("p" ++ "somesalt").toList
      ∧ (atobList (hashPassword "p").toList).asString = "p" ++ "somesalt") :=
  ⟨by decide, hashPassword_reversible "p" (by decide)⟩

/-- C4: the live-call base64 codec round-trips: for every byte list with
elements in 0..255, encode succeeds and decode returns exactly the input
bytes, so decode is a left inverse of encode. -/
theorem encode_decode_roundtrip (l : List Nat) (h : ∀ b ∈ l, b < 256) :
    ∃ s, encode l = some s ∧ decode s = l := by
  have hall : (l.map Char.ofNat).all (fun c => c.toNat < 256) = true := by
    simp only [List.all_eq_true, List.mem_map]
    rintro c ⟨b, hb, rfl⟩
    simpa [char_toNat_ofNat (h b hb)] using h b hb
  have hmap : (l.map Char.ofNat).map Char.toNat = l := by
    rw [List.map_map]
    exact List.map_congr_left (fun b hb => char_toNat_ofNat (h b hb)) |>.trans
      (List.map_id l)
  refine ⟨btoaChunks l, ?_, ?_⟩
  · rw [encode, btoaList, if_pos hall, hmap]
  · rw [decode, atobList, atobChunks_btoaChunks l h, List.map_map]
    exact (List.map_congr_left (fun b hb => char_toNat_ofNat (h b hb))).trans
      (List.map_id l)

/-- C4, witness: the codec round trip evaluated at a concrete byte list
containing boundary values. -/
theorem encode_decode_roundtrip_witness :
    (∀ b ∈ [0, 1, 127, 128, 255], b < 256)
    ∧ ∃ s, encode [0, 1, 127, 128, 255] = some s ∧ decode s = [0, 1, 127, 128, 255] :=
  ⟨by decide, encode_decode_roundtrip [0, 1, 127, 128, 255] (by decide)⟩

end ThinkFlock

namespace ThinkFlock

/-- C5: buffered playback scheduling never overlaps chunks and preserves
arrival order: each chunk starts at max(nextStartTime, currentTime) and
nextStartTime then advances by the chunk's duration, so for two consecutive
chunk events with no interposed interrupted message the later chunk's
scheduled start is at least the earlier chunk's start plus its duration, and
(durations being nonnegative) nextStartTime does not decrease across a chunk
event. -/
theorem audio_scheduling_disjoint_ordered (nst0 : ℚ) (events : List AudioEvent)
    (i : Nat) (ct1 d1 ct2 d2 : ℚ)
    (h1 : events[i]? = some (AudioEvent.chunk ct1 d1))
    (h2 : events[i + 1]? = some (AudioEvent.chunk ct2 d2)) :
    chunkStart (nstAfter nst0 (events.take i)) ct1 + d1 ≤
      chunkStart (nstAfter nst0 (events.take (i + 1))) ct2
    ∧ (0 ≤ d1 →
        nstAfter nst0 (events.take i) ≤ nstAfter nst0 (events.take (i + 1))) := by
  have hstep := nstAfter_take_succ nst0 events i _ h1
  rw [stepNST] at hstep
  constructor
  · rw [hstep, chunkStart]
    exact le_max_left _ _
  · intro hd1
    rw [hstep, chunkStart]
    calc nstAfter nst0 (events.take i)
        ≤ max (nstAfter nst0 (events.take i)) ct1 := le_max_left _ _
      _ ≤ max (nstAfter nst0 (events.take i)) ct1 + d1 := by linarith

/-- C5, witness: the scheduling property evaluated on two concrete
consecutive chunks. -/
theorem audio_scheduling_disjoint_ordered_witness :
    ([AudioEvent.chunk 0 1, AudioEvent.chunk 2 1][0]? =
        some (AudioEvent.chunk 0 1))
    ∧ ([AudioEvent.chunk 0 1, AudioEvent.chunk 2 1][0 + 1]? =
        some (AudioEvent.chunk 2 1))
    ∧ (chunkStart (nstAfter 0 ([AudioEvent.chunk 0 1, AudioEvent.chunk 2 1].take 0)) 0 + 1 ≤
        chunkStart (nstAfter 0 ([AudioEvent.chunk 0 1, AudioEvent.chunk 2 1].take (0 + 1))) 2
      ∧ ((0 : ℚ) ≤ 1 →
          nstAfter 0 ([AudioEvent.chunk 0 1, AudioEvent.chunk 2 1].take 0) ≤
            nstAfter 0 ([AudioEvent.chunk 0 1, AudioEvent.chunk 2 1].take (0 + 1)))) :=
  ⟨rfl, rfl,
    audio_scheduling_disjoint_ordered 0 [AudioEvent.chunk 0 1, AudioEvent.chunk 2 1]
      0 0 1 2 1 rfl rfl⟩

/-- C6: PCM decoding is the exact linear mapping of 16-bit samples: the
decoded buffer has one frame per byte pair, sample i equals dataInt16[i] /
32768, every decoded sample lies in [-1, 1); conversely createBlob maps each
input sample x to the truncation of x * 32768 wrapped per 16-bit
two's complement, and an input of exactly 1.0 wraps to -32768. -/
theorem pcm_linear_mapping (data : List Nat) (hb : ∀ b ∈ data, b < 256) :
    (decodeAudioDataFromAPI data).length = data.length / 2
    ∧ (∀ i : Nat, (decodeAudioDataFromAPI data)[i]? =
        ((bytesToInt16 data)[i]?).map (fun (v : ℤ) => (v : ℚ) / 32768))
    ∧ (∀ s ∈ decodeAudioDataFromAPI data, -1 ≤ s ∧ s < 1)
    ∧ (∀ x : ℚ, (createBlobSample x - truncRat (x * 32768)) % 65536 = 0 ∧
        -32768 ≤ createBlobSample x ∧ createBlobSample x < 32768)
    ∧ createBlobSample 1 = -32768 := by
  refine ⟨?_, ?_, ?_, createBlobSample_wrap, ?_⟩
  · rw [decodeAudioDataFromAPI, List.length_map, bytesToInt16_length]
  · intro i
    rw [decodeAudioDataFromAPI, List.getElem?_map]
  · intro s hs
    rw [decodeAudioDataFromAPI, List.mem_map] at hs
    obtain ⟨v, hv, rfl⟩ := hs
    obtain ⟨hlo, hhi⟩ := bytesToInt16_mem_range data hb v hv
    constructor
    · rw [le_div_iff₀ (by norm_num : (0:ℚ) < 32768)]
      have : ((-32768 : ℤ) : ℚ) ≤ (v : ℚ) := by exact_mod_cast hlo
      push_cast at this ⊢
      linarith
    · rw [div_lt_iff₀ (by norm_num : (0:ℚ) < 32768)]
      have : (v : ℚ) < ((32768 : ℤ) : ℚ) := by exact_mod_cast hhi
      push_cast at this ⊢
      linarith
  · have ht : truncRat ((1 : ℚ) * 32768) = 32768 := by
      rw [truncRat, if_pos (by norm_num)]
      norm_num
    rw [createBlobSample, ht, toInt16]
    norm_num

/-- C6, witness: the PCM mapping evaluated at a concrete two-frame chunk
(samples 0x7fff and -1). -/
theorem pcm_linear_mapping_witness :
    (∀ b ∈ [255, 127, 255, 255], b < 256)
    ∧ ((decodeAudioDataFromAPI [255, 127, 255, 255]).length = [255, 127, 255, 255].length / 2
      ∧ (∀ i : Nat, (decodeAudioDataFromAPI [255, 127, 255, 255])[i]? =
          ((bytesToInt16 [255, 127, 255, 255])[i]?).map (fun (v : ℤ) => (v : ℚ) / 32768))
      ∧ (∀ s ∈ decodeAudioDataFromAPI [255, 127, 255, 255], -1 ≤ s ∧ s < 1)
      ∧ (∀ x : ℚ, (createBlobSample x - truncRat (x * 32768)) % 65536 = 0 ∧
          -32768 ≤ createBlobSample x ∧ createBlobSample x < 32768)
      ∧ createBlobSample 1 = -32768) :=
  ⟨by decide, pcm_linear_mapping [255, 127, 255, 255] (by decide)⟩

end ThinkFlock

namespace ThinkFlock

/-- C7: for a submitted message with non-empty trimmed text, responses are
generated sequentially over the responding personas, which form an
order-preserving sublist of config.personas; they are exactly the personas
whose names occur among the @-mention captures when the regex matches, and
all of config.personas when getMentionedPersonas returns none; the trace of
generation calls is the responding personas in order followed by exactly one
Persona Discussion generation if and only if more than one persona
responded. -/
theorem send_message_flow (personas : List Persona) (text : String)
    (hne : jsTrim text ≠ "") :
    List.Sublist (respondingPersonas personas text) personas
    ∧ (getMentionedPersonas personas text = none →
        respondingPersonas personas text = personas)
    ∧ (∀ ms, getMentionedPersonas personas text = some ms →
        ∀ p, p ∈ ms ↔ p ∈ personas ∧ (scanMentions text).contains p.name = true)
    ∧ sendTrace personas text =
        (respondingPersonas personas text).map
          (fun p => GenCall.personaResponse p.name)
          ++ (if 1 < (respondingPersonas personas text).length then
                [GenCall.personaDiscussion] else [])
    ∧ (sendTrace personas text).count GenCall.personaDiscussion =
        (if 1 < (respondingPersonas personas text).length then 1 else 0) := by
  refine ⟨?_, ?_, ?_, ?_, ?_⟩
  · cases hm : scanMentions text with
    | nil =>
        simp [respondingPersonas, getMentionedPersonas, hm]
    | cons a as =>
        simp only [respondingPersonas, getMentionedPersonas, hm, Option.getD_some]
        exact List.filter_sublist _
  · intro hnone
    simp [respondingPersonas, hnone]
  · intro ms hms p
    rw [getMentionedPersonas] at hms
    cases hm : scanMentions text with
    | nil => rw [hm] at hms; simp at hms
    | cons a as =>
        rw [hm] at hms
        simp only [Option.some.injEq] at hms
        subst hms
        rw [List.mem_filter]
  · rw [sendTrace, if_neg hne]
  · rw [sendTrace, if_neg hne, List.count_append]
    have hz : ((respondingPersonas personas text).map
        (fun p => GenCall.personaResponse p.name)).count GenCall.personaDiscussion = 0 := by
      rw [List.count_eq_zero]
      intro hmem
      rw [List.mem_map] at hmem
      obtain ⟨p, _, hp⟩ := hmem
      exact GenCall.noConfusion hp
    rw [hz]
    split <;> rfl

/-- C7, witness: the send flow evaluated at one persona named Alice and the
message "hi @Alice". -/
theorem send_message_flow_witness :
    (jsTrim "hi @Alice" ≠ "")
    ∧ (List.Sublist
        (respondingPersonas [{ name := "Alice", description := "d", systemInstruction := "s", avatarUrl := "a" }] "hi @Alice")
        [{ name := "Alice", description := "d", systemInstruction := "s", avatarUrl := "a" }]
      ∧ (getMentionedPersonas [{ name := "Alice", description := "d", systemInstruction := "s", avatarUrl := "a" }] "hi @Alice" = none →
          respondingPersonas [{ name := "Alice", description := "d", systemInstruction := "s", avatarUrl := "a" }] "hi @Alice" =
            [{ name := "Alice", description := "d", systemInstruction := "s", avatarUrl := "a" }])
      ∧ (∀ ms, getMentionedPersonas [{ name := "Alice", description := "d", systemInstruction := "s", avatarUrl := "a" }] "hi @Alice" = some ms →
          ∀ p, p ∈ ms ↔ p ∈ [{ name := "Alice", description := "d", systemInstruction := "s", avatarUrl := "a" }] ∧
            (scanMentions "hi @Alice").contains p.name = true)
      ∧ sendTrace [{ name := "Alice", description := "d", systemInstruction := "s", avatarUrl := "a" }] "hi @Alice" =
          (respondingPersonas [{ name := "Alice", description := "d", systemInstruction := "s", avatarUrl := "a" }] "hi @Alice").map
            (fun p => GenCall.personaResponse p.name)
            ++ (if 1 < (respondingPersonas [{ name := "Alice", description := "d", systemInstruction := "s", avatarUrl := "a" }] "hi @Alice").length then
                  [GenCall.personaDiscussion] else [])
      ∧ (sendTrace [{ name := "Alice", description := "d", systemInstruction := "s", avatarUrl := "a" }] "hi @Alice").count
            GenCall.personaDiscussion =
          (if 1 < (respondingPersonas [{ name := "Alice", description := "d", systemInstruction := "s", avatarUrl := "a" }] "hi @Alice").length
            then 1 else 0)) :=
  ⟨by decide,
    send_message_flow [{ name := "Alice", description := "d", systemInstruction := "s", avatarUrl := "a" }] "hi @Alice" (by decide)⟩

/-- C8: when generating a persona's response fails, the error is caught and
surfaced as the generic System chat message "An error occurred with
{persona.name}." appended to the previously accumulated messages, which are
otherwise unchanged, and the send loop proceeds to the next responding
persona with no retry. -/
theorem persona_error_surfaced (persona : Persona) (msgs : List ChatMessage)
    (rest : List (Persona × Except Unit String)) :
    generatePersonaResponse persona (Except.error ()) msgs =
      msgs ++ [{ sender := "System",
                 text := "An error occurred with " ++ persona.name ++ "." }]
    ∧ runSendLoop ((persona, Except.error ()) :: rest) msgs =
        runSendLoop rest
          (msgs ++ [{ sender := "System",
                      text := "An error occurred with " ++ persona.name ++ "." }]) :=
  ⟨rfl, rfl⟩

/-- C9: when all prior history topics are pairwise distinct, handleEndSession
removes every item with the completed session's topic, appends the completed
session last, preserves topic distinctness, and leaves the new item as the
only one with that topic. -/
theorem session_history_topic_unique (prev : List SessionHistoryItem)
    (newId topic : String) (ps : List Persona) (ms : List ChatMessage)
    (hnd : (prev.map SessionHistoryItem.topic).Nodup) :
    handleEndSession prev newId topic ps ms =
      prev.filter (fun h => h.topic ≠ topic) ++
        [{ id := newId, topic := topic, personas := ps, messages := ms }]
    ∧ ((handleEndSession prev newId topic ps ms).map SessionHistoryItem.topic).Nodup
    ∧ (handleEndSession prev newId topic ps ms).getLast? =
        some { id := newId, topic := topic, personas := ps, messages := ms }
    ∧ (∀ h ∈ handleEndSession prev newId topic ps ms, h.topic = topic →
        h = { id := newId, topic := topic, personas := ps, messages := ms }) := by
  refine ⟨rfl, ?_, ?_, ?_⟩
  · have hsub : ((prev.filter (fun h => h.topic ≠ topic)).map
        SessionHistoryItem.topic).Sublist (prev.map SessionHistoryItem.topic) :=
      (List.filter_sublist _).map _
    rw [handleEndSession, List.map_append, List.nodup_append]
    refine ⟨hnd.sublist hsub, by simp, ?_⟩
    intro t ht ht2
    simp only [List.map_cons, List.map_nil, List.mem_singleton] at ht2
    subst ht2
    simp only [List.mem_map, List.mem_filter] at ht
    obtain ⟨h, ⟨hmem, hne⟩, htt⟩ := ht
    rw [decide_eq_true_eq] at hne
    exact hne htt
  · rw [handleEndSession]
    exact List.getLast?_concat _
  · intro h hh htop
    rw [handleEndSession, List.mem_append] at hh
    rcases hh with hh | hh
    · rw [List.mem_filter] at hh
      exact absurd htop (by simpa using hh.2)
    · simpa using hh

/-- C9, witness: the history invariant evaluated at a concrete one-item
history with a different topic. -/
theorem session_history_topic_unique_witness :
    (([{ id := "0", topic := "other", personas := [], messages := [] : SessionHistoryItem }].map SessionHistoryItem.topic).Nodup)
    ∧ (handleEndSession [{ id := "0", topic := "other", personas := [], messages := [] }] "1" "t" [] [] =
        [{ id := "0", topic := "other", personas := [], messages := [] : SessionHistoryItem }].filter (fun h => h.topic ≠ "t") ++
          [{ id := "1", topic := "t", personas := [], messages := [] }]
      ∧ ((handleEndSession [{ id := "0", topic := "other", personas := [], messages := [] }] "1" "t" [] []).map SessionHistoryItem.topic).Nodup
      ∧ (handleEndSession [{ id := "0", topic := "other", personas := [], messages := [] }] "1" "t" [] []).getLast? =
          some { id := "1", topic := "t", personas := [], messages := [] }
      ∧ (∀ h ∈ handleEndSession [{ id := "0", topic := "other", personas := [], messages := [] }] "1" "t" [] [], h.topic = "t" →
          h = { id := "1", topic := "t", personas := [], messages := [] })) :=
  ⟨by decide,
    session_history_topic_unique [{ id := "0", topic := "other", personas := [], messages := [] }] "1" "t" [] [] (by decide)⟩

/-- C10: the auth service never exposes the stored password hash: every
successful login resolves with exactly the id and email of the matched user,
and every successful signUp resolves with exactly the id and email of the
created user (the resolved type PublicUser has no hashedPassword field). -/
theorem auth_public_fields_only (store : List User) (newId email password : String) :
    (∀ pub, (login store email password).1 = Except.ok pub →
      ∃ u, store.find? (fun v => v.email == email) = some u ∧
        pub = { id := u.id, email := u.email })
    ∧ (∀ pub, (signUp store newId email password).1 = Except.ok pub →
        pub = { id := newId, email := email }) := by
  constructor
  · intro pub hok
    cases hf : store.find? (fun v => v.email == email) with
    | none => simp [login, hf] at hok
    | some u =>
        by_cases hpw : u.hashedPassword = hashPassword password
        · refine ⟨u, rfl, ?_⟩
          simp [login, hf, hpw] at hok
          exact hok.symm
        · simp [login, hf, hpw] at hok
  · intro pub hok
    cases hf : store.find? (fun u => u.email == email) with
    | none =>
        simp [signUp, hf] at hok
        exact hok.symm
    | some u => simp [signUp, hf] at hok

/-- C10, witness: the public-fields property evaluated at the empty store. -/
theorem auth_public_fields_only_witness :
    (∀ pub, (login [] "e" "p").1 = Except.ok pub →
      ∃ u, ([] : List User).find? (fun v => v.email == "e") = some u ∧
        pub = { id := u.id, email := u.email })
    ∧ (∀ pub, (signUp [] "1" "e" "p").1 = Except.ok pub →
        pub = { id := "1", email := "e" }) :=
  auth_public_fields_only [] "1" "e" "p"

end ThinkFlock
